import Mathlib

/-!
Verification of the `/predict` pipeline of `src/app.py` (a Flask relay that
forwards a base64-encoded image to a remote classifier and reformats the
returned predictions).

Modelling conventions:
* Python strings are modelled as `String` / `List Char`.
* Python `float` scores are modelled as exact rationals `ℚ`; `round(x, 4)` is
  modelled as round-half-to-even at 4 decimal places.
* The parsed JSON request body (`request.get_json(silent=True)`) is modelled
  by `Option Json` (`none` = unparseable body).
* The remote HTTP call (`requests.post`) is modelled by a function from the
  forwarded `inputs` payload to an abstract `BackendResp`.
* Python exception messages are abbreviated to short stand-in strings; only
  which exception path is taken matters, not the message text.
* JSON objects model Python dicts produced by JSON parsing, so keys are
  assumed distinct and lookup takes the first matching key.
-/

/-! ### Strings: Python `in`, `split`, the `"base64,"` cleaning step -/

/-- Boolean test that `p` is a leading segment of `s` (used to model Python
substring search). -/
def isPre : List Char → List Char → Bool
  | [], _ => true
  | _ :: _, [] => false
  | a :: as, b :: bs => a == b && isPre as bs

/-- First occurrence of `sep` in `s`, as Python `str.split` finds it: returns
the part strictly before the occurrence and the part strictly after it. -/
def splitFirst (sep : List Char) : List Char → Option (List Char × List Char)
  | [] => none
  | c :: rest =>
    if isPre sep (c :: rest) then some ([], List.drop (sep.length - 1) rest)
    else
      match splitFirst sep rest with
      | none => none
      | some (pre, post) => some (c :: pre, post)

/-- Python's substring membership test `sep in s`. -/
def hasInfix (sep : List Char) : List Char → Bool
  | [] => sep.isEmpty
  | c :: rest => isPre sep (c :: rest) || hasInfix sep rest

/-- Python `str.split(sep)` on character lists, fuelled so that it is
structurally recursive; each split step consumes at least one character, so
`s.length` fuel always suffices. -/
def pySplitAux (sep : List Char) : Nat → List Char → List (List Char)
  | 0, s => [s]
  | fuel + 1, s =>
    match splitFirst sep s with
    | none => [s]
    | some (pre, post) => pre :: pySplitAux sep fuel post

/-- Python `str.split(sep)`. -/
def pySplit (sep s : List Char) : List (List Char) := pySplitAux sep s.length s

/-- The data-URI marker `"base64,"` hardcoded at `app.py:37`. -/
def marker : List Char := "base64,".data

/-- The part of `l` strictly before its first `"base64,"` occurrence
(all of `l` if the marker does not occur). -/
def beforeMarker (l : List Char) : List Char :=
  match splitFirst marker l with
  | none => l
  | some (pre, _) => pre

/-- Code at `app.py:37-38`: `if "base64," in b64_string: b64_string =
b64_string.split("base64,")[1]`, on character lists. -/
def cleanB64L (s : List Char) : List Char :=
  if hasInfix marker s then (pySplit marker s).getD 1 [] else s

/-- Code at `app.py:37-38` on `String`. -/
def cleanB64 (s : String) : String := ⟨cleanB64L s.data⟩

/-! ### Label cleaning (`app.py:104`) -/

/-- Model of `re.sub(r'^n\d+-', '', raw_label)`: remove a leading `n`, one or more
digits, and a `-`, when present (the digit run is maximal since `-` is not a
digit, so backtracking never helps the regex). -/
def stripSynset (l : List Char) : List Char :=
  match l with
  | [] => []
  | c :: rest =>
    if c = 'n' then
      if (rest.takeWhile Char.isDigit).isEmpty then c :: rest
      else
        match rest.dropWhile Char.isDigit with
        | d :: r => if d = '-' then r else c :: rest
        | [] => c :: rest
    else c :: rest

/-- Model of `.replace('_', ' ')` on a single character. -/
def underscoreToSpace (c : Char) : Char := if c = '_' then ' ' else c

/-- Python `str.title()` scanner: a letter is uppercased when the previous
character was not a letter and lowercased otherwise; non-letters pass through
and reset the word boundary. -/
def pyTitleGo (prevCased : Bool) : List Char → List Char
  | [] => []
  | c :: rest =>
    if c.isAlpha then
      (if prevCased then c.toLower else c.toUpper) :: pyTitleGo true rest
    else c :: pyTitleGo false rest

/-- Python `str.title()`. -/
def pyTitle (l : List Char) : List Char := pyTitleGo false l

/-- Code at `app.py:104`: `re.sub(r'^n\d+-', '', raw_label).replace('_', ' ').title()`
on character lists. -/
def cleanLabelL (l : List Char) : List Char :=
  pyTitle ((stripSynset l).map underscoreToSpace)

/-- Code at `app.py:104` on `String`. -/
def cleanLabel (s : String) : String := ⟨cleanLabelL s.data⟩

/-- Positional description of Python title-casing: the character produced at
index `i` depends only on the input characters at `i` and `i - 1`. -/
def titleCharAt (s : List Char) (i : Nat) : Char :=
  let c := s.getD i ' '
  if c.isAlpha then
    if i = 0 then c.toUpper
    else if (s.getD (i - 1) ' ').isAlpha then c.toLower
    else c.toUpper
  else c

/-- Positional description of `pyTitleGo b`: like `titleCharAt` but with the
word-boundary state `b` governing index 0. -/
def titleGoCharAt (b : Bool) (l : List Char) (i : Nat) : Char :=
  let c := l.getD i ' '
  if c.isAlpha then
    if (if i = 0 then b else (l.getD (i - 1) ' ').isAlpha) then c.toLower
    else c.toUpper
  else c

/-- Complete behaviour of the `^n\d+-` substitution: either it leaves the
label unchanged, or it removes exactly a leading `n<digits>-` prefix. -/
def stripBehavior (l : List Char) : Prop :=
  stripSynset l = l ∨
    ∃ ds r, ds ≠ [] ∧ (∀ c ∈ ds, c.isDigit = true) ∧
      l = 'n' :: (ds ++ '-' :: r) ∧ stripSynset l = r

/-! ### Rounding and result formatting (`app.py:99-110`) -/

/-- Round-half-to-even to an integer (Python `round` on exact values). -/
def roundHalfEven (x : ℚ) : ℤ :=
  let f := ⌊x⌋
  let r := x - f
  if r < 1 / 2 then f
  else if 1 / 2 < r then f + 1
  else if f % 2 = 0 then f else f + 1

/-- Python `round(x, 4)` on exact rationals. -/
def pyRound4 (q : ℚ) : ℚ := (roundHalfEven (q * 10000) : ℚ) / 10000

/-- A raw prediction as consumed by the formatting loop: a dict with a string
`label` and a numeric `score` (defaults already applied). -/
structure RawPred where
  label : String
  score : ℚ
deriving DecidableEq

/-- One formatted entry of the response (`app.py:106-110`). -/
structure Ranked where
  label : String
  confidence : ℚ
  is_best_match : Bool
deriving DecidableEq

/-- The body of the loop at `app.py:100-110` for loop index `i`: the entry
carries the cleaned label, the rounded score, and the best-match flag
`i == 0`. -/
def formatOne (i : Nat) (p : RawPred) : Ranked :=
  ⟨cleanLabel p.label, pyRound4 p.score, i == 0⟩

/-- The loop `for i, pred in enumerate(hf_predictions)` starting at index
`i`. -/
def formatFrom (i : Nat) : List RawPred → List Ranked
  | [] => []
  | p :: ps => formatOne i p :: formatFrom (i + 1) ps

/-- Code at `app.py:99-110`: the whole formatting loop. -/
def formatResults (l : List RawPred) : List Ranked := formatFrom 0 l

/-! ### JSON values, Python truthiness, membership and lookup -/

/-- Parsed JSON values (what `request.get_json` / `response.json()` yield). -/
inductive Json where
  | null
  | bool (b : Bool)
  | num (q : ℚ)
  | str (s : String)
  | arr (xs : List Json)
  | obj (kvs : List (String × Json))

/-- Python truthiness of a parsed JSON value (`not data` at `app.py:31`). -/
def pyTruthy : Json → Bool
  | .null => false
  | .bool b => b
  | .num q => q != 0
  | .str s => s != ""
  | .arr xs => !xs.isEmpty
  | .obj kvs => !kvs.isEmpty

/-- Python `"image" in data` (`app.py:31`): key membership for dicts, element
membership for lists, substring membership for strings; `none` models the
`TypeError` raised for the remaining types. -/
def pyInImage : Json → Option Bool
  | .obj kvs => some (kvs.any (fun kv => kv.1 == "image"))
  | .arr xs =>
    some (xs.any (fun j => match j with | .str t => t == "image" | _ => false))
  | .str s => some (hasInfix "image".data s.data)
  | _ => none

/-- Python dict lookup `d[k]` / `d.get(k)` on a parsed JSON object. -/
def pyGetKey (kvs : List (String × Json)) (k : String) : Option Json :=
  (kvs.find? (fun kv => kv.1 == k)).map (fun kv => kv.2)

/-- Python `str.strip()` (whitespace from both ends), `app.py:57`. -/
def pyStrip (s : String) : String :=
  ⟨((s.data.dropWhile Char.isWhitespace).reverse.dropWhile
      Char.isWhitespace).reverse⟩

/-! ### The response-processing stage (`app.py:54-115`) -/

/-- Code at `app.py:95-96`: `if isinstance(hf_predictions, list) and
len(hf_predictions) > 0 and isinstance(hf_predictions[0], list):
hf_predictions = hf_predictions[0]`. -/
def flattenPreds : Json → Json
  | .arr (Json.arr ys :: _) => .arr ys
  | j => j

/-- One iteration of the formatting loop viewed as validation
(`app.py:101-108`): `pred.get("label", "Unknown")` and
`pred.get("score", 0)` need `pred` to be a dict (else `AttributeError`),
`re.sub` needs the label to be a string and `round` needs the score to be a
number (else `TypeError`); Python `bool` scores are numeric. -/
def extractPred : Json → Except String RawPred
  | .obj kvs =>
    let lab := (pyGetKey kvs "label").getD (.str "Unknown")
    let sco := (pyGetKey kvs "score").getD (.num 0)
    match lab with
    | .str ls =>
      match sco with
      | .num q => .ok ⟨ls, q⟩
      | .bool b => .ok ⟨ls, if b then 1 else 0⟩
      | _ => .error "TypeError: round"
    | _ => .error "TypeError: re.sub"
  | _ => .error "AttributeError: get"

/-- The formatting loop over a list of JSON elements, stopping at the first
element that raises. -/
def extractList : List Json → Except String (List RawPred)
  | [] => .ok []
  | j :: rest =>
    match extractPred j with
    | .error m => .error m
    | .ok p =>
      match extractList rest with
      | .error m => .error m
      | .ok ps => .ok (p :: ps)

/-- Iterating `hf_predictions` in the loop at `app.py:100`: a list iterates
its elements; a dict iterates its keys (strings, so the first key raises
`AttributeError` unless the dict is empty); a string iterates its characters
likewise; other values are not iterable (`TypeError`). -/
def extractPreds : Json → Except String (List RawPred)
  | .arr xs => extractList xs
  | .obj kvs => if kvs.isEmpty then .ok [] else .error "AttributeError: get"
  | .str s => if s = "" then .ok [] else .error "AttributeError: get"
  | _ => .error "TypeError: not iterable"

/-- The caller-visible outcomes of the `/predict` handler. -/
inductive PredResponse where
  /-- Response at `app.py:32`: 400, no image provided. -/
  | missingInput
  /-- Response at `app.py:60-64`: 502, empty response from the backend. -/
  | hfEmpty
  /-- Response at `app.py:69-74`: 502, non-JSON response from the backend. -/
  | hfNonJson
  /-- Response at `app.py:77-81`: backend status code relayed with its details. -/
  | hfStatusError (status : Nat) (details : Json)
  /-- Response at `app.py:88-92`: 503, an error key inside a 200 response. -/
  | hfInferenceError (details : Json)
  /-- Response at `app.py:117-118`: 504, `requests.exceptions.Timeout`. -/
  | timeout
  /-- Response at `app.py:119-121`: 500, any other exception inside the `try`. -/
  | serverError (msg : String)
  /-- An exception raised outside the `try` block (handled by Flask, not by
  the handler itself). -/
  | crash (msg : String)
  /-- Response at `app.py:112-115`: 200, success with the formatted predictions. -/
  | success (preds : List Ranked)

/-- What the modelled `requests.post` call can produce: a timeout, another
`requests` exception, or a response with a status code, a body text and the
result of attempting to parse that text as JSON. -/
inductive BackendResp where
  | timeout
  | exn (msg : String)
  | resp (status : Nat) (rawText : String) (json : Option Json)

/-- Code at `app.py:95-115`: flatten one nesting level, then run the formatting
loop. -/
def processPredictions (p : Json) : PredResponse :=
  match extractPreds (flattenPreds p) with
  | .error m => .serverError m
  | .ok preds => .success (formatResults preds)

/-- Code at `app.py:54-115`: validation of the backend response and formatting of the
predictions. -/
def handleBackendResp : BackendResp → PredResponse
  | .timeout => .timeout
  | .exn m => .serverError m
  | .resp status text json =>
    if pyStrip text = "" then .hfEmpty
    else
      match json with
      | none => .hfNonJson
      | some p =>
        if status ≠ 200 then .hfStatusError status p
        else
          match p with
          | .obj kvs =>
            match pyGetKey kvs "error" with
            | some e => .hfInferenceError e
            | none => processPredictions (.obj kvs)
          | _ => processPredictions p

/-- The whole `/predict` handler (`app.py:29-121`) over a parsed request body
and an abstract backend. The `backend` argument receives the `inputs` value
of the forwarded payload (`app.py:40-52`). Non-dict bodies that pass the
guard, and non-string image values, follow the Python exception raised by
`data["image"]` / `"base64," in b64_string` / `.split`. -/
def predict (body : Option Json) (backend : Json → BackendResp) :
    PredResponse :=
  match body with
  | none => .missingInput
  | some data =>
    if !pyTruthy data then .missingInput
    else
      match pyInImage data with
      | none => .crash "TypeError: in operator"
      | some false => .missingInput
      | some true =>
        match data with
        | .obj kvs =>
          match pyGetKey kvs "image" with
          | some (.str s) => handleBackendResp (backend (.str (cleanB64 s)))
          | some (.arr xs) =>
            if xs.any (fun j => match j with
                | .str t => t == "base64," | _ => false) then
              .serverError "AttributeError: split"
            else handleBackendResp (backend (.arr xs))
          | some (.obj kvs2) =>
            if (pyGetKey kvs2 "base64,").isSome then
              .serverError "AttributeError: split"
            else handleBackendResp (backend (.obj kvs2))
          | some _ => .serverError "TypeError: in operator"
          | none => .serverError "KeyError: image"
        | .arr _ => .serverError "TypeError: list indices"
        | .str _ => .serverError "TypeError: string indices"
        | _ => .serverError "TypeError: in operator"

/-! ### Definitions written from the spec, for comparison -/

/-- Modelled from the spec: membership in the base64 alphabet, the condition
under which the spec's `InvalidEncoding` error is not raised. -/
def specIsBase64Char (c : Char) : Bool :=
  c.isAlpha || c.isDigit || c == '+' || c == '/' || c == '='

/-- Modelled from the spec: title-casing with whitespace-delimited words
("capitalize the first letter of each whitespace-delimited word, lowercase
the rest of each word's letters"). -/
def specTitleGo (atWordStart : Bool) : List Char → List Char
  | [] => []
  | c :: rest =>
    if c.isWhitespace then c :: specTitleGo true rest
    else
      (if c.isAlpha then
        (if atWordStart then c.toUpper else c.toLower)
       else c) :: specTitleGo false rest

/-- Modelled from the spec: whitespace-word title-casing. -/
def specTitle (l : List Char) : List Char := specTitleGo true l

/-- Modelled from the spec: canonicalization with whitespace-word
title-casing (prefix stripping and underscore replacement as in the code,
where spec and code agree). -/
def specCanonicalize (s : String) : String :=
  ⟨specTitle ((stripSynset s.data).map underscoreToSpace)⟩

/-! ### Helper lemmas: rounding -/

theorem roundHalfEven_intCast (n : ℤ) : roundHalfEven (n : ℚ) = n := by
  rw [roundHalfEven]
  norm_num

theorem pyRound4_eval (n : ℤ) (q : ℚ) (h : q = (n : ℚ) / 10000) :
    pyRound4 q = q := by
  have hm : q * 10000 = (n : ℚ) := by rw [h]; field_simp
  rw [pyRound4, hm, roundHalfEven_intCast, h]

/-! ### Helper lemmas: the formatting loop -/

theorem formatFrom_length (i : Nat) (l : List RawPred) :
    (formatFrom i l).length = l.length := by
  induction l generalizing i with
  | nil => rfl
  | cons p ps ih => simp [formatFrom, ih]

theorem formatFrom_map_conf (i : Nat) (l : List RawPred) :
    (formatFrom i l).map (fun r => r.confidence) =
      l.map (fun p => pyRound4 p.score) := by
  induction l generalizing i with
  | nil => rfl
  | cons p ps ih => simp [formatFrom, formatOne, ih]

theorem formatFrom_countP_zero (i : Nat) (l : List RawPred) (h : i ≠ 0) :
    (formatFrom i l).countP (fun r => r.is_best_match) = 0 := by
  induction l generalizing i with
  | nil => rfl
  | cons p ps ih =>
    have hb : (formatOne i p).is_best_match = false := by
      simp only [formatOne]
      exact beq_eq_false_iff_ne.mpr h
    rw [formatFrom, List.countP_cons_of_neg _ _ (by simp [hb])]
    exact ih (i + 1) (by omega)

/-! ### Claim C1 -/

/-- C1, counterexample: on the backend output `[("a", 0.1), ("b", 0.9)]` the
unique entry with `is_best_match = true` is the first one, whose confidence
`0.1` is not the maximum (`0.9` occurs later), refuting the claim that the
best-marked entry always carries the maximum confidence. -/
theorem c1_counterexample :
    formatResults [⟨"a", 3/10⟩, ⟨"b", 9/10⟩] =
      [⟨"A", 3/10, true⟩, ⟨"B", 9/10, false⟩] ∧ (3 : ℚ)/10 < 9/10 := by
  refine ⟨?_, by norm_num⟩
  have h1 : pyRound4 ((3 : ℚ)/10) = 3/10 := pyRound4_eval 3000 _ (by norm_num)
  have h2 : pyRound4 ((9 : ℚ)/10) = 9/10 := pyRound4_eval 9000 _ (by norm_num)
  simp [formatResults, formatFrom, formatOne, h1, h2]
  exact ⟨by decide, by decide⟩

/-- C1 (corrected): for every nonempty raw-prediction sequence, exactly one
formatted entry has `is_best_match = true`, and it is always the entry built
from the first raw prediction in the backend's original order, carrying that
prediction's rounded score (the code performs no argmax selection, so this is
the maximum only when the backend lists its best score first). -/
theorem c1_amended (p : RawPred) (l : List RawPred) :
    (formatResults (p :: l)).countP (fun r => r.is_best_match) = 1
    ∧ (formatResults (p :: l)).head? =
        some ⟨cleanLabel p.label, pyRound4 p.score, true⟩ := by
  constructor
  · rw [formatResults, formatFrom,
      List.countP_cons_of_pos _ _ (by simp [formatOne])]
    rw [formatFrom_countP_zero 1 l (by omega)]
  · rfl

/-! ### Claim C2 -/

/-- C2, counterexample: on the backend output `[("x", 0.25), ("y", 0.75)]`
the formatted output keeps the backend order `0.25, 0.75`, which is not
descending, refuting the claim that a descending sort happens before
formatting. -/
theorem c2_counterexample :
    formatResults [⟨"x", 3/20⟩, ⟨"y", 17/20⟩] =
      [⟨"X", 3/20, true⟩, ⟨"Y", 17/20, false⟩] ∧ (3 : ℚ)/20 < 17/20 := by
  refine ⟨?_, by norm_num⟩
  have h1 : pyRound4 ((3 : ℚ)/20) = 3/20 := pyRound4_eval 1500 _ (by norm_num)
  have h2 : pyRound4 ((17 : ℚ)/20) = 17/20 := pyRound4_eval 8500 _ (by norm_num)
  simp [formatResults, formatFrom, formatOne, h1, h2]
  exact ⟨by decide, by decide⟩

/-- C2 (corrected): the code performs no sort at all — the formatted output's
confidences are exactly the rounded input scores in the backend's original
order, so the output is descending only when the backend's output already
is. -/
theorem c2_amended (l : List RawPred) :
    (formatResults l).map (fun r => r.confidence) =
      l.map (fun p => pyRound4 p.score) :=
  formatFrom_map_conf 0 l

/-! ### Claim C3 -/

/-- C3, counterexample: a 2-element backend output is formatted to 2 entries,
while the claim with `top_k = 1` demands `min 1 2 = 1` entries — no
truncation happens. -/
theorem c3_counterexample :
    (formatResults [⟨"p", 1/2⟩, ⟨"q", 1/5⟩]).length = 2 ∧
      (2 : Nat) ≠ min 1 2 := by
  exact ⟨rfl, by norm_num⟩

/-- C3 (corrected): the code takes no `top_k` parameter and performs no
truncation — the formatted output always has exactly the length of the
(flattened) backend prediction list. -/
theorem c3_amended (l : List RawPred) :
    (formatResults l).length = l.length :=
  formatFrom_length 0 l

/-! ### Claim C9 -/

/-- C9 (confirmed): an empty raw-prediction list is formatted to an empty
prediction list and reported as a success, not an error — both at the
response-processing stage and end-to-end through the handler (the code has no
`top_k` parameter, so the result does not depend on any such value). -/
theorem c9_theorem :
    processPredictions (Json.arr []) = PredResponse.success []
    ∧ formatResults [] = []
    ∧ predict (some (Json.obj [("image", Json.str "x")]))
        (fun _ => BackendResp.resp 200 "[]" (some (Json.arr []))) =
        PredResponse.success [] :=
  ⟨rfl, rfl, rfl⟩

/-! ### Claim C10 -/

/-- C10 (confirmed): whenever the parsed backend response is a non-empty list
whose first element is itself a list, the whole response is replaced by that
first inner list — for every tail, so any sibling elements after the first
inner list are discarded. -/
theorem c10_theorem (ys rest : List Json) :
    flattenPreds (Json.arr (Json.arr ys :: rest)) = Json.arr ys :=
  rfl

/-! ### Helper lemmas: splitting on the marker -/

theorem isPre_exists {p s : List Char} (h : isPre p s = true) :
    ∃ t, s = p ++ t := by
  induction p generalizing s with
  | nil => exact ⟨s, rfl⟩
  | cons a as ih =>
    cases s with
    | nil => simp [isPre] at h
    | cons b bs =>
      rw [isPre, Bool.and_eq_true, beq_iff_eq] at h
      obtain ⟨t, ht⟩ := ih h.2
      exact ⟨t, by simp [ht, h.1]⟩

theorem splitFirst_lt {sep : List Char} :
    ∀ {s pre post : List Char}, splitFirst sep s = some (pre, post) →
      post.length < s.length := by
  intro s
  induction s with
  | nil => intro pre post h; simp [splitFirst] at h
  | cons c rest ih =>
    intro pre post h
    simp only [splitFirst] at h
    by_cases hp : isPre sep (c :: rest) = true
    · rw [if_pos hp] at h
      simp only [Option.some.injEq, Prod.mk.injEq] at h
      rw [← h.2]
      simp only [List.length_drop, List.length_cons]
      omega
    · rw [if_neg hp] at h
      cases hsf : splitFirst sep rest with
      | none => rw [hsf] at h; simp at h
      | some pp =>
        obtain ⟨pre', post'⟩ := pp
        rw [hsf] at h
        simp only [Option.some.injEq, Prod.mk.injEq] at h
        have := ih hsf
        rw [← h.2]
        simp only [List.length_cons]
        omega

theorem splitFirst_decomp {sep : List Char} (hsep : sep ≠ []) :
    ∀ {s pre post : List Char}, splitFirst sep s = some (pre, post) →
      s = pre ++ sep ++ post := by
  intro s
  induction s with
  | nil => intro pre post h; simp [splitFirst] at h
  | cons c rest ih =>
    intro pre post h
    simp only [splitFirst] at h
    by_cases hp : isPre sep (c :: rest) = true
    · rw [if_pos hp] at h
      simp only [Option.some.injEq, Prod.mk.injEq] at h
      obtain ⟨t, ht⟩ := isPre_exists hp
      cases sep with
      | nil => exact absurd rfl hsep
      | cons a sep' =>
        rw [List.cons_append] at ht
        injection ht with hca hrest
        subst hca
        rw [← h.1, ← h.2, List.nil_append]
        simp only [List.length_cons, Nat.add_sub_cancel]
        rw [hrest, List.drop_left, List.cons_append]
    · rw [if_neg hp] at h
      cases hsf : splitFirst sep rest with
      | none => rw [hsf] at h; simp at h
      | some pp =>
        obtain ⟨pre', post'⟩ := pp
        rw [hsf] at h
        simp only [Option.some.injEq, Prod.mk.injEq] at h
        rw [← h.1, ← h.2]
        have := ih hsf
        rw [List.cons_append, List.cons_append]
        rw [List.append_assoc] at this ⊢
        exact congrArg (c :: ·) this

theorem splitFirst_none_iff {sep : List Char} (hsep : sep ≠ []) :
    ∀ s : List Char, splitFirst sep s = none ↔ hasInfix sep s = false := by
  intro s
  induction s with
  | nil =>
    simp only [splitFirst, hasInfix, true_iff]
    cases sep with
    | nil => exact absurd rfl hsep
    | cons a sep' => rfl
  | cons c rest ih =>
    simp only [splitFirst, hasInfix]
    cases hp : isPre sep (c :: rest) with
    | true => simp [hp]
    | false =>
      simp only [hp, Bool.false_or, Bool.false_eq_true, if_false]
      cases hsf : splitFirst sep rest with
      | none => simp [ih.mp hsf]
      | some pp =>
        obtain ⟨pre', post'⟩ := pp
        cases hb : hasInfix sep rest with
        | false => rw [ih.mpr hb] at hsf; cases hsf
        | true => simp [hb]

theorem pySplitAux_congr {sep : List Char} :
    ∀ (f₁ f₂ : Nat) (s : List Char), s.length ≤ f₁ → s.length ≤ f₂ →
      pySplitAux sep f₁ s = pySplitAux sep f₂ s := by
  intro f₁
  induction f₁ with
  | zero =>
    intro f₂ s h1 _
    have hs : s = [] := List.eq_nil_of_length_eq_zero (by omega)
    subst hs
    cases f₂ with
    | zero => rfl
    | succ f' => simp [pySplitAux, splitFirst]
  | succ f ih =>
    intro f₂ s h1 h2
    cases f₂ with
    | zero =>
      have hs : s = [] := List.eq_nil_of_length_eq_zero (by omega)
      subst hs
      simp [pySplitAux, splitFirst]
    | succ f' =>
      cases hsf : splitFirst sep s with
      | none => simp [pySplitAux, hsf]
      | some pp =>
        obtain ⟨pre, post⟩ := pp
        have hlt := splitFirst_lt hsf
        simp only [pySplitAux, hsf]
        rw [ih f' post (by omega) (by omega)]

theorem pySplit_eq_none {sep s : List Char} (h : splitFirst sep s = none) :
    pySplit sep s = [s] := by
  cases s with
  | nil => rfl
  | cons c rest => simp [pySplit, pySplitAux, h]

theorem pySplit_eq_some {sep s pre post : List Char}
    (h : splitFirst sep s = some (pre, post)) :
    pySplit sep s = pre :: pySplit sep post := by
  cases s with
  | nil => simp [splitFirst] at h
  | cons c rest =>
    have hlt := splitFirst_lt h
    show pySplitAux sep (c :: rest).length (c :: rest) = _
    simp only [List.length_cons, pySplitAux, h]
    rw [pySplit]
    rw [pySplitAux_congr rest.length post.length post
      (by simp only [List.length_cons] at hlt; omega) (Nat.le_refl _)]

theorem hasInfix_true_of_some {sep s pre post : List Char} (hsep : sep ≠ [])
    (h : splitFirst sep s = some (pre, post)) : hasInfix sep s = true := by
  cases hb : hasInfix sep s with
  | false => rw [(splitFirst_none_iff hsep s).mpr hb] at h; cases h
  | true => rfl

/-! ### Claim C5 -/

/-- C5, counterexample: the 9-character payload `"iVBORw0KG"` (no data-URI
marker, length mod 4 = 1) is forwarded unchanged — the claimed padding repair
would have produced `"iVBORw0KG==="`. -/
theorem c5_counterexample :
    cleanB64 "iVBORw0KG" = "iVBORw0KG" ∧ "iVBORw0KG".length % 4 = 1 ∧
      ("iVBORw0KG" : String) ≠ "iVBORw0KG===" :=
  ⟨by decide, by decide, by decide⟩

/-- C5 (corrected): no padding repair is performed — the cleaning step only
ever selects a contiguous substring of its input (the segment after the first
`"base64,"` marker up to the next one, or the whole string), so no `=`
characters are appended. -/
theorem c5_amended (s : List Char) : cleanB64L s <:+: s := by
  rw [cleanB64L]
  have hsep : marker ≠ [] := by decide
  by_cases h : hasInfix marker s = true
  · rw [if_pos h]
    cases hsf : splitFirst marker s with
    | none => rw [(splitFirst_none_iff hsep s).mp hsf] at h; cases h
    | some pp =>
      obtain ⟨pre, post⟩ := pp
      have hd := splitFirst_decomp hsep hsf
      rw [pySplit_eq_some hsf]
      cases hsf' : splitFirst marker post with
      | none =>
        rw [pySplit_eq_none hsf']
        exact ⟨pre ++ marker, [], by simp [hd]⟩
      | some pp' =>
        obtain ⟨pre', post'⟩ := pp'
        have hd' := splitFirst_decomp hsep hsf'
        rw [pySplit_eq_some hsf']
        exact ⟨pre ++ marker, marker ++ post', by simp [hd, hd']⟩
  · rw [if_neg h]

/-! ### Claim C7 -/

/-- C7, counterexample: on `"data:base64,AAbase64,BB"` the code keeps `"AA"`
(the segment between the first and second marker), not the entire remainder
`"AAbase64,BB"` after the first marker, refuting the claim. -/
theorem c7_counterexample :
    cleanB64 "data:base64,AAbase64,BB" = "AA" ∧
      ("AA" : String) ≠ "AAbase64,BB" :=
  ⟨by decide, by decide⟩

/-- C7 (corrected): when the marker occurs, `split("base64,")[1]` keeps the
segment of the remainder after the first marker up to (not including) the
next marker occurrence — the entire remainder only when the marker occurs
exactly once; a string without the marker is used unmodified. -/
theorem c7_amended (s t pre post : List Char)
    (h : splitFirst marker s = some (pre, post))
    (ht : splitFirst marker t = none) :
    cleanB64L s = beforeMarker post ∧ cleanB64L t = t := by
  have hsep : marker ≠ [] := by decide
  constructor
  · rw [cleanB64L, if_pos (hasInfix_true_of_some hsep h), pySplit_eq_some h,
      beforeMarker]
    cases hsf : splitFirst marker post with
    | none => rw [pySplit_eq_none hsf]; rfl
    | some pp =>
      obtain ⟨pre', post'⟩ := pp
      rw [pySplit_eq_some hsf]
      rfl
  · rw [cleanB64L, if_neg (by simp [(splitFirst_none_iff hsep t).mp ht])]

/-- C7, witness: on `"Xbase64,AAbase64,BB"` the first marker occurrence
splits off `pre = "X"`, `post = "AAbase64,BB"`, and the cleaned payload is
the part of `post` before its own marker; `"hello"` is kept unmodified. -/
theorem c7_amended_witness :
    cleanB64L "Xbase64,AAbase64,BB".data = beforeMarker "AAbase64,BB".data ∧
      cleanB64L "hello".data = "hello".data :=
  c7_amended "Xbase64,AAbase64,BB".data "hello".data "X".data
    "AAbase64,BB".data (by decide) (by decide)

/-! ### Claim C4 -/

/-- C4, counterexample: the payload `"!!!!"` consists of characters outside
the base64 alphabet, yet the pipeline does not fail with any client-input
error — it forwards the string and succeeds as soon as the backend answers,
refuting the claim that decoding happens locally and rejects such input. -/
theorem c4_counterexample :
    predict (some (Json.obj [("image", Json.str "!!!!")]))
      (fun _ => BackendResp.resp 200 "[]" (some (Json.arr []))) =
      PredResponse.success []
    ∧ specIsBase64Char '!' = false :=
  ⟨rfl, by decide⟩

/-- C4 (corrected): the pipeline never decodes the base64 payload locally —
for every image string (valid base64 or not), the handler forwards the
prefix-stripped payload verbatim to the backend and its outcome is entirely
determined by the backend's response; no `InvalidEncoding` error path
exists. -/
theorem c4_amended (s : String) (backend : Json → BackendResp) :
    predict (some (Json.obj [("image", Json.str s)])) backend =
      handleBackendResp (backend (Json.str (cleanB64 s))) :=
  rfl

/-! ### Claim C8 -/

/-- C8, counterexample: the parseable body `["image"]` lacks an `image`
field (it is an array), yet the handler does not report the missing-input
error — the element `"image"` makes the membership test succeed and the
subsequent `data["image"]` raises, yielding a generic 500 server error. -/
theorem c8_counterexample :
    predict (some (Json.arr [Json.str "image"]))
      (fun _ => BackendResp.timeout) =
      PredResponse.serverError "TypeError: list indices"
    ∧ PredResponse.serverError "TypeError: list indices" ≠
        PredResponse.missingInput :=
  ⟨rfl, by simp⟩

/-- C8 (corrected): whenever the guard `not data or "image" not in data`
fires — the body is unparseable, Python-falsy, or the membership test is
false — the handler answers missing-input immediately, independently of the
backend (so no backend call is observable); but a non-object body containing
`"image"` as an element passes the guard and instead produces a generic
server error, also independently of the backend. -/
theorem c8_amended (b : Option Json) (backend : Json → BackendResp)
    (h : b = none ∨ ∃ d, b = some d ∧
        (pyTruthy d = false ∨ pyInImage d = some false)) :
    predict b backend = PredResponse.missingInput
    ∧ predict (some (Json.arr [Json.str "image"])) backend =
        PredResponse.serverError "TypeError: list indices" := by
  refine ⟨?_, rfl⟩
  rcases h with rfl | ⟨d, rfl, hd⟩
  · rfl
  · rcases hd with hd | hd
    · simp [predict, hd]
    · cases hpt : pyTruthy d
      · simp [predict, hpt]
      · simp [predict, hpt, hd]

/-- C8, witness: the falsy body `{}` (an empty JSON object, which lacks the
`image` field) is answered with missing-input; the array body `["image"]`
gets the generic server error instead. -/
theorem c8_amended_witness :
    predict (some (Json.obj [])) (fun _ => BackendResp.timeout) =
      PredResponse.missingInput
    ∧ predict (some (Json.arr [Json.str "image"]))
        (fun _ => BackendResp.timeout) =
        PredResponse.serverError "TypeError: list indices" :=
  c8_amended (some (Json.obj [])) (fun _ => BackendResp.timeout)
    (Or.inr ⟨Json.obj [], rfl, Or.inl rfl⟩)

/-! ### Helper lemmas: label cleaning -/

theorem mem_takeWhile_pred {p : Char → Bool} :
    ∀ (l : List Char), ∀ c ∈ l.takeWhile p, p c = true := by
  intro l
  induction l with
  | nil => intro c hc; simp at hc
  | cons a as ih =>
    intro c hc
    rw [List.takeWhile_cons] at hc
    cases hp : p a with
    | false => rw [hp] at hc; simp at hc
    | true =>
      rw [hp] at hc
      simp only [if_true] at hc
      rcases List.mem_cons.mp hc with rfl | hc'
      · exact hp
      · exact ih c hc'

theorem takeWhile_stops {p : Char → Bool} :
    ∀ (ds : List Char) (x : Char) (t : List Char),
      (∀ c ∈ ds, p c = true) → p x = false →
      (ds ++ x :: t).takeWhile p = ds ∧ (ds ++ x :: t).dropWhile p = x :: t := by
  intro ds
  induction ds with
  | nil =>
    intro x t _ hx
    simp [List.takeWhile_cons, List.dropWhile_cons, hx]
  | cons a as ih =>
    intro x t hall hx
    have ha : p a = true := hall a (by simp)
    have h2 := ih x t (fun c hc => hall c (by simp [hc])) hx
    simp [List.takeWhile_cons, List.dropWhile_cons, ha, h2.1, h2.2]

theorem stripSynset_strips (ds rest : List Char) (hds : ds ≠ [])
    (hdig : ∀ c ∈ ds, c.isDigit = true) :
    stripSynset ('n' :: (ds ++ '-' :: rest)) = rest := by
  have h := takeWhile_stops ds '-' rest hdig (by decide)
  simp [stripSynset, h.1, h.2, hds]

theorem stripSynset_cases (l : List Char) : stripBehavior l := by
  rw [stripBehavior]
  cases l with
  | nil => left; rfl
  | cons c rest =>
    by_cases hc : c = 'n'
    · subst hc
      by_cases he : (rest.takeWhile Char.isDigit).isEmpty = true
      · left; simp [stripSynset, he]
      · cases hd : rest.dropWhile Char.isDigit with
        | nil => left; simp [stripSynset, he, hd]
        | cons d tl =>
          by_cases hdash : d = '-'
          · subst hdash
            right
            refine ⟨rest.takeWhile Char.isDigit, tl, ?_, ?_, ?_, ?_⟩
            · intro hnil; rw [hnil] at he; exact he rfl
            · exact fun c hc => mem_takeWhile_pred rest c hc
            · have hsplit := List.takeWhile_append_dropWhile
                (p := Char.isDigit) (l := rest)
              rw [hd] at hsplit
              exact congrArg (fun x => 'n' :: x) hsplit.symm
            · simp [stripSynset, he, hd]
          · left; simp [stripSynset, he, hd, hdash]
    · left; simp [stripSynset, hc]

theorem pyTitleGo_length (b : Bool) (l : List Char) :
    (pyTitleGo b l).length = l.length := by
  induction l generalizing b with
  | nil => rfl
  | cons c rest ih =>
    cases ha : c.isAlpha <;> simp [pyTitleGo, ha, ih]

theorem pyTitleGo_getD :
    ∀ (l : List Char) (b : Bool) (i : Nat), i < l.length →
      (pyTitleGo b l).getD i ' ' = titleGoCharAt b l i := by
  intro l
  induction l with
  | nil => intro b i hi; simp at hi
  | cons c rest ih =>
    intro b i hi
    cases i with
    | zero =>
      cases ha : c.isAlpha <;>
        simp [pyTitleGo, titleGoCharAt, ha, List.getD_cons_zero]
    | succ j =>
      have hj : j < rest.length := by
        simp only [List.length_cons] at hi; omega
      cases ha : c.isAlpha with
      | true =>
        simp only [pyTitleGo, ha, if_true, List.getD_cons_succ]
        rw [ih true j hj]
        cases j with
        | zero => simp [titleGoCharAt, List.getD_cons_zero,
            List.getD_cons_succ, ha]
        | succ k => simp [titleGoCharAt, List.getD_cons_succ]
      | false =>
        simp only [pyTitleGo, ha, Bool.false_eq_true, if_false,
          List.getD_cons_succ]
        rw [ih false j hj]
        cases j with
        | zero => simp [titleGoCharAt, List.getD_cons_zero,
            List.getD_cons_succ, ha]
        | succ k => simp [titleGoCharAt, List.getD_cons_succ]

theorem pyTitle_getD (s : List Char) (i : Nat) (hi : i < s.length) :
    (pyTitle s).getD i ' ' = titleCharAt s i := by
  rw [pyTitle, pyTitleGo_getD s false i hi]
  rw [titleGoCharAt, titleCharAt]
  cases i with
  | zero => simp
  | succ j => simp

/-! ### Claim C6 -/

/-- C6, counterexample: the code title-cases `"shih-tzu"` to `"Shih-Tzu"`
(Python `str.title()` starts a new word at the hyphen), while the claimed
whitespace-delimited title-casing yields `"Shih-tzu"` — the letter after the
hyphen must be lowercase under the claim. -/
theorem c6_counterexample :
    cleanLabel "shih-tzu" = "Shih-Tzu"
    ∧ specCanonicalize "shih-tzu" = "Shih-tzu"
    ∧ ("Shih-Tzu" : String) ≠ "Shih-tzu" :=
  ⟨by decide, by decide, by decide⟩

/-- C6 (corrected): canonicalization removes a leading `n<digits>-` prefix
when present (and only then changes the label beyond character mapping),
replaces underscores with spaces, and title-cases per Python `str.title()`:
the letter at position `i` is uppercased exactly when `i = 0` or the
preceding character is not a letter — so hyphens, digits and apostrophes
also start new words, not only whitespace. -/
theorem c6_amended (s ds rest : List Char) (i : Nat) (hds : ds ≠ [])
    (hdig : ∀ c ∈ ds, c.isDigit = true) (hi : i < s.length) :
    stripSynset ('n' :: (ds ++ '-' :: rest)) = rest
    ∧ stripBehavior s
    ∧ cleanLabelL s = pyTitle ((stripSynset s).map underscoreToSpace)
    ∧ (pyTitle s).length = s.length
    ∧ (pyTitle s).getD i ' ' = titleCharAt s i :=
  ⟨stripSynset_strips ds rest hds hdig, stripSynset_cases s, rfl,
    pyTitleGo_length false s, pyTitle_getD s i hi⟩

/-- C6, witness: the prefix `n02-` is stripped from `"n02-fox"`; the
title-casing facts instantiated on `"a-b"` at index 2, where the `'b'` after
the hyphen is uppercased. -/
theorem c6_amended_witness :
    stripSynset ('n' :: (['0', '2'] ++ '-' :: "fox".data)) = "fox".data
    ∧ stripBehavior "a-b".data
    ∧ cleanLabelL "a-b".data =
        pyTitle ((stripSynset "a-b".data).map underscoreToSpace)
    ∧ (pyTitle "a-b".data).length = "a-b".data.length
    ∧ (pyTitle "a-b".data).getD 2 ' ' = titleCharAt "a-b".data 2 :=
  c6_amended "a-b".data ['0', '2'] "fox".data 2 (by decide) (by decide)
    (by decide)
